import Mathlib

/-!
Shallow embedding of `src/context/TransactionContext.tsx` from the
`mama-kod/bwat_sekre` repository: a ledger of banking transactions kept in
memory, mirrored to a browser key/value snapshot store, with operations to
add deposits/withdrawals, transfer funds, delete transactions and query the
collection.  External collaborators (the Balance Adjuster
`updateClientBalance` and the Notifier `toast`) are modelled by recording
the calls each operation makes, in order.  Timestamps (`format(new Date())`)
are modelled as an externally supplied `now` string.
-/

/-- A ledger record, mirroring the `Transaction` object literal built in
`addTransaction` and `transferFunds` (fields per the spec's data model:
the recipient cross-references are present only on transfer records). -/
structure Transaction where
  id : String
  clientId : String
  accountId : String
  type : String
  amount : Int
  description : String
  date : String
  status : String
  currency : String
  recipientAccountId : Option String
  recipientClientId : Option String
deriving DecidableEq, Repr

/-- A primitive JSON value as it appears in the serialized snapshot
(`JSON.stringify`): every `Transaction` field is a string or a number. -/
inductive JsonValue where
  | jstr : String → JsonValue
  | jnum : Int → JsonValue
deriving DecidableEq, Repr

/-- One recorded invocation of the external Balance Adjuster
(`updateClientBalance(clientId, accountId, amount, isCredit)`). -/
structure AdjustCall where
  clientId : String
  accountId : String
  amount : Int
  isCredit : Bool
deriving DecidableEq, Repr

/-- Serialization of one `Transaction` to a JSON object, modelled as an
ordered field list; `undefined` optional fields are omitted, as
`JSON.stringify` omits them. -/
def encodeTx (t : Transaction) : List (String × JsonValue) :=
  [("id", JsonValue.jstr t.id), ("clientId", JsonValue.jstr t.clientId),
   ("accountId", JsonValue.jstr t.accountId), ("type", JsonValue.jstr t.type),
   ("amount", JsonValue.jnum t.amount), ("description", JsonValue.jstr t.description),
   ("date", JsonValue.jstr t.date), ("status", JsonValue.jstr t.status),
   ("currency", JsonValue.jstr t.currency)]
  ++ (match t.recipientAccountId with
      | some a => [("recipientAccountId", JsonValue.jstr a)]
      | none => [])
  ++ (match t.recipientClientId with
      | some c => [("recipientClientId", JsonValue.jstr c)]
      | none => [])

/-- Decoding of the trailing optional recipient fields of a serialized
transaction. -/
def decodeRecipients : List (String × JsonValue) → Option (Option String × Option String)
  | [] => some (none, none)
  | [("recipientAccountId", JsonValue.jstr a)] => some (some a, none)
  | [("recipientClientId", JsonValue.jstr c)] => some (none, some c)
  | [("recipientAccountId", JsonValue.jstr a), ("recipientClientId", JsonValue.jstr c)] =>
      some (some a, some c)
  | _ => none

/-- Deserialization of one JSON object back into a `Transaction`
(the typed view `JSON.parse` is trusted to produce in the source). -/
def decodeTx : List (String × JsonValue) → Option Transaction
  | ("id", JsonValue.jstr i) :: ("clientId", JsonValue.jstr c) ::
    ("accountId", JsonValue.jstr a) :: ("type", JsonValue.jstr ty) ::
    ("amount", JsonValue.jnum am) :: ("description", JsonValue.jstr de) ::
    ("date", JsonValue.jstr da) :: ("status", JsonValue.jstr st) ::
    ("currency", JsonValue.jstr cu) :: rest =>
      match decodeRecipients rest with
      | some (ra, rc) => some ⟨i, c, a, ty, am, de, da, st, cu, ra, rc⟩
      | none => none
  | _ => none

/-- Serialization of the whole collection (`JSON.stringify(transactions)`). -/
def encodeTxList (l : List Transaction) : List (List (String × JsonValue)) :=
  l.map encodeTx

/-- Deserialization of the whole collection (`JSON.parse(stored)`). -/
def decodeTxList : List (List (String × JsonValue)) → Option (List Transaction)
  | [] => some []
  | e :: rest =>
      match decodeTx e, decodeTxList rest with
      | some t, some ts => some (t :: ts)
      | _, _ => none

/-- Little-endian decimal digits with explicit fuel, so that the kernel can
evaluate it on concrete inputs. -/
def digitsFuel : Nat → Nat → List Nat
  | 0, _ => []
  | fuel + 1, n => if n = 0 then [] else n % 10 :: digitsFuel fuel (n / 10)

/-- Decimal digits of `n`, little-endian (`n` itself is enough fuel). -/
def decDigits (n : Nat) : List Nat := digitsFuel n n

/-- Reassembles a little-endian decimal digit list into the number. -/
def fromDigits : List Nat → Nat
  | [] => 0
  | d :: ds => d + 10 * fromDigits ds

/-- Modelled from the spec: the id generator `getNewId('t')` lives in
`src/data/mockData`, which is not among the provided sources.  The spec
requires each generated id to be unique across the collection and never
reused, so the generator is modelled as a per-state counter rendered after
the `t` tag prefix passed by the callers. -/
def mkId (n : Nat) : String :=
  String.mk ('t' :: ((decDigits n).map Nat.digitChar).reverse)

/-- The component state: the in-memory collection, the `loading` and `error`
flags, the id-generator counter (see `mkId`), and the Snapshot Store
(`localStorage` key `volvy-bank-transactions`), holding the serialized
collection when present. -/
structure LedgerState where
  transactions : List Transaction
  loading : Bool
  error : Option String
  nextId : Nat
  store : Option (List (List (String × JsonValue)))
deriving DecidableEq, Repr

/-- The state at mount: empty collection, `loading = true`, no error. -/
def initState : LedgerState :=
  { transactions := [], loading := true, error := none, nextId := 0, store := none }

/-- The save-to-localStorage effect that runs after the collection changes:
`if (!loading && transactions.length > 0) localStorage.setItem(...)`. -/
def persist (s : LedgerState) : LedgerState :=
  if s.loading = false ∧ 0 < s.transactions.length then
    { s with store := some (encodeTxList s.transactions) }
  else s

/-- The successful branch of the initial load effect: use the stored
collection when the snapshot exists, otherwise the seed dataset
(`mockTransactions`, whose content lives outside the provided sources),
then clear `loading`. -/
def loadSuccess (s : LedgerState) (stored : Option (List Transaction))
    (seed : List Transaction) : LedgerState :=
  { s with transactions := stored.getD seed, loading := false }

/-- The catch branch of the initial load effect: set the error flag and
clear `loading`; the collection is left as it was (still empty). -/
def loadFailure (s : LedgerState) : LedgerState :=
  { s with error := some "Failed to load transactions", loading := false }

/-- A state whose initial load found an empty stored snapshot: the empty
ledger, ready for operations. -/
def loadedEmpty : LedgerState := loadSuccess initState (some []) []

/-- What one operation produces: the next state, plus the Balance Adjuster
calls and the Notifier toasts it emitted, in order. -/
structure OpResult where
  state : LedgerState
  calls : List AdjustCall
  toasts : List String
deriving DecidableEq, Repr

/-- Lookup by id: `transactions.find(t => t.id === id)`. -/
def getTransaction (s : LedgerState) (id : String) : Option Transaction :=
  s.transactions.find? (fun t => t.id == id)

/-- Per-client query: `transactions.filter(t => t.clientId === clientId)`. -/
def getClientTransactions (s : LedgerState) (clientId : String) : List Transaction :=
  s.transactions.filter (fun t => t.clientId == clientId)

/-- The caller-supplied part of a new transaction
(`Omit<Transaction, 'id' | 'date' | 'status'>` minus the recipient fields,
which `addTransaction` callers do not set). -/
structure AddInput where
  clientId : String
  accountId : String
  type : String
  amount : Int
  description : String
  currency : String
deriving DecidableEq, Repr

/-- `addTransaction`: build the record with a fresh id, the current
timestamp and status `completed`; append it; call the Balance Adjuster once
with `isCredit = (type === 'deposit')`; toast a success message.  No
validation of any kind is performed. -/
def addTransaction (s : LedgerState) (input : AddInput) (now : String) : OpResult :=
  let newTransaction : Transaction :=
    { id := mkId s.nextId, clientId := input.clientId, accountId := input.accountId,
      type := input.type, amount := input.amount, description := input.description,
      date := now, status := "completed", currency := input.currency,
      recipientAccountId := none, recipientClientId := none }
  { state := persist { s with
      transactions := s.transactions ++ [newTransaction],
      nextId := s.nextId + 1 },
    calls := [⟨input.clientId, input.accountId, input.amount, input.type == "deposit"⟩],
    toasts := [(if input.type == "deposit" then "Dépôt" else "Retrait")
                ++ " effectué avec succès!"] }

/-- The parameter object of `transferFunds`. -/
structure TransferParams where
  fromClientId : String
  fromAccountId : String
  toClientId : String
  toAccountId : String
  amount : Int
  description : String
  currency : String
deriving DecidableEq, Repr

/-- `transferFunds`: build the sender-side and recipient-side transfer
records, append both (sender first), debit the sender then credit the
recipient through the Balance Adjuster, toast one success message. -/
def transferFunds (s : LedgerState) (p : TransferParams) (now : String) : OpResult :=
  let withdrawalTransaction : Transaction :=
    { id := mkId s.nextId, clientId := p.fromClientId, accountId := p.fromAccountId,
      type := "transfer", amount := p.amount,
      description := "Transfert vers " ++ p.description, date := now,
      status := "completed", currency := p.currency,
      recipientAccountId := some p.toAccountId, recipientClientId := some p.toClientId }
  let depositTransaction : Transaction :=
    { id := mkId (s.nextId + 1), clientId := p.toClientId, accountId := p.toAccountId,
      type := "transfer", amount := p.amount,
      description := "Transfert reçu de " ++ p.description, date := now,
      status := "completed", currency := p.currency,
      recipientAccountId := some p.fromAccountId, recipientClientId := some p.fromClientId }
  { state := persist { s with
      transactions := s.transactions ++ [withdrawalTransaction, depositTransaction],
      nextId := s.nextId + 2 },
    calls := [⟨p.fromClientId, p.fromAccountId, p.amount, false⟩,
              ⟨p.toClientId, p.toAccountId, p.amount, true⟩],
    toasts := ["Transfert effectué avec succès!"] }

/-- `deleteTransaction`: look the record up by id; when absent do nothing at
all; when present, reverse its balance effect with
`isCredit = (type !== 'deposit')`, remove every record with that id
(`filter(t => t.id !== id)`), and toast a success message. -/
def deleteTransaction (s : LedgerState) (id : String) : OpResult :=
  match s.transactions.find? (fun t => t.id == id) with
  | none => { state := s, calls := [], toasts := [] }
  | some t =>
      { state := persist { s with
          transactions := s.transactions.filter (fun tr => tr.id != id) },
        calls := [⟨t.clientId, t.accountId, t.amount, t.type != "deposit"⟩],
        toasts := ["Transaction supprimée avec succès!"] }

/-- The states reachable from the freshly loaded empty ledger by the public
mutating operations, with no restriction on the supplied inputs. -/
inductive ReachableLedger : LedgerState → Prop
  | init : ReachableLedger loadedEmpty
  | addStep (s : LedgerState) (input : AddInput) (now : String) :
      ReachableLedger s → ReachableLedger (addTransaction s input now).state
  | transferStep (s : LedgerState) (p : TransferParams) (now : String) :
      ReachableLedger s → ReachableLedger (transferFunds s p now).state
  | deleteStep (s : LedgerState) (id : String) :
      ReachableLedger s → ReachableLedger (deleteTransaction s id).state

/-- The states reachable from the freshly loaded empty ledger when every
amount supplied by a caller is nonnegative. -/
inductive ReachableNonneg : LedgerState → Prop
  | init : ReachableNonneg loadedEmpty
  | addStep (s : LedgerState) (input : AddInput) (now : String) :
      ReachableNonneg s → 0 ≤ input.amount →
      ReachableNonneg (addTransaction s input now).state
  | transferStep (s : LedgerState) (p : TransferParams) (now : String) :
      ReachableNonneg s → 0 ≤ p.amount →
      ReachableNonneg (transferFunds s p now).state
  | deleteStep (s : LedgerState) (id : String) :
      ReachableNonneg s → ReachableNonneg (deleteTransaction s id).state

/-- The id-generator invariant: every id already in the collection was
produced by the generator at some earlier counter value. -/
def IdInv (s : LedgerState) : Prop :=
  ∀ t ∈ s.transactions, ∃ n, n < s.nextId ∧ t.id = mkId n

/-- A deposit of 100 for client `C1`, account `A1` (the spec's delete
scenario). -/
def depositC1 : Transaction :=
  ⟨"t1", "C1", "A1", "deposit", 100, "Initial deposit", "2026-01-01 00:00:00",
   "completed", "USD", none, none⟩

/-- A loaded state holding just `depositC1`, with its snapshot saved. -/
def sDeposit : LedgerState :=
  { transactions := [depositC1], loading := false, error := none, nextId := 2,
    store := some (encodeTxList [depositC1]) }

/-- First of two records sharing the id `d1`. -/
def dupA : Transaction :=
  ⟨"d1", "C1", "A1", "deposit", 100, "first", "2026-01-01 00:00:00",
   "completed", "USD", none, none⟩

/-- Second of two records sharing the id `d1`. -/
def dupB : Transaction :=
  ⟨"d1", "C2", "A2", "withdrawal", 50, "second", "2026-01-02 00:00:00",
   "completed", "USD", none, none⟩

/-- A loaded state whose collection carries a duplicated id. -/
def sDup : LedgerState :=
  { transactions := [dupA, dupB], loading := false, error := none, nextId := 5,
    store := none }

/-- The input of the spec's deposit scenario: 100 for `(C1, A1)`. -/
def input100 : AddInput := ⟨"C1", "A1", "deposit", 100, "salary", "USD"⟩

/-- The state after adding the spec's deposit scenario to the empty ledger. -/
def s100 : LedgerState :=
  (addTransaction loadedEmpty input100 "2026-01-01 00:00:00").state

/-- The record that the deposit scenario appends. -/
def tx100 : Transaction :=
  ⟨mkId 0, "C1", "A1", "deposit", 100, "salary", "2026-01-01 00:00:00",
   "completed", "USD", none, none⟩

theorem persist_transactions (s : LedgerState) : (persist s).transactions = s.transactions := by
  unfold persist; split <;> rfl

theorem persist_nextId (s : LedgerState) : (persist s).nextId = s.nextId := by
  unfold persist; split <;> rfl

theorem digitsFuel_lt_ten (fuel : Nat) : ∀ n, ∀ d ∈ digitsFuel fuel n, d < 10 := by
  induction fuel with
  | zero => intro n d hd; simp [digitsFuel] at hd
  | succ fuel ih =>
    intro n d hd
    unfold digitsFuel at hd
    by_cases h : n = 0
    · simp [h] at hd
    · simp [h] at hd
      rcases hd with h1 | h2
      · omega
      · exact ih _ d h2

theorem fromDigits_digitsFuel (fuel : Nat) : ∀ n, n ≤ fuel →
    fromDigits (digitsFuel fuel n) = n := by
  induction fuel with
  | zero => intro n h; have : n = 0 := by omega
            subst this; rfl
  | succ fuel ih =>
    intro n h
    unfold digitsFuel
    by_cases h0 : n = 0
    · simp [h0, fromDigits]
    · simp [h0, fromDigits]
      rw [ih (n / 10) (by omega)]
      omega

theorem digitChar_inj_lt : ∀ a, a < 10 → ∀ b, b < 10 →
    Nat.digitChar a = Nat.digitChar b → a = b := by decide

theorem map_digitChar_inj : ∀ l1 l2 : List Nat, (∀ d ∈ l1, d < 10) → (∀ d ∈ l2, d < 10) →
    l1.map Nat.digitChar = l2.map Nat.digitChar → l1 = l2 := by
  intro l1
  induction l1 with
  | nil =>
    intro l2 _ _ h
    cases l2 with
    | nil => rfl
    | cons b bs => simp at h
  | cons a as ih =>
    intro l2 h1 h2 h
    cases l2 with
    | nil => simp at h
    | cons b bs =>
      simp only [List.map_cons, List.cons.injEq] at h
      have ha : a < 10 := h1 a (List.mem_cons_self a as)
      have hb : b < 10 := h2 b (List.mem_cons_self b bs)
      have hab : a = b := digitChar_inj_lt a ha b hb h.1
      subst hab
      have htl := ih bs (fun d hd => h1 d (List.mem_cons_of_mem _ hd))
        (fun d hd => h2 d (List.mem_cons_of_mem _ hd)) h.2
      rw [htl]

theorem mkId_inj (a b : Nat) (h : mkId a = mkId b) : a = b := by
  unfold mkId at h
  have hdata : ('t' :: ((decDigits a).map Nat.digitChar).reverse)
      = ('t' :: ((decDigits b).map Nat.digitChar).reverse) := by
    injection h
  have hrev : ((decDigits a).map Nat.digitChar).reverse
      = ((decDigits b).map Nat.digitChar).reverse := by
    injection hdata
  have hmap := List.reverse_injective hrev
  have hdig := map_digitChar_inj (decDigits a) (decDigits b)
    (digitsFuel_lt_ten a a) (digitsFuel_lt_ten b b) hmap
  have hfd := congrArg fromDigits hdig
  rwa [show fromDigits (decDigits a) = a from fromDigits_digitsFuel a a (Nat.le_refl a),
       show fromDigits (decDigits b) = b from fromDigits_digitsFuel b b (Nat.le_refl b)] at hfd

theorem decodeTx_encodeTx (t : Transaction) : decodeTx (encodeTx t) = some t := by
  obtain ⟨i, c, a, ty, am, de, da, st, cu, ra, rc⟩ := t
  cases ra <;> cases rc <;> rfl

theorem decodeTxList_encodeTxList (l : List Transaction) :
    decodeTxList (encodeTxList l) = some l := by
  induction l with
  | nil => rfl
  | cons t ts ih =>
    show decodeTxList (encodeTx t :: encodeTxList ts) = some (t :: ts)
    unfold decodeTxList
    rw [decodeTx_encodeTx, ih]

theorem find?_filter_ne (l : List Transaction) (i : String) :
    (l.filter (fun tr => tr.id != i)).find? (fun t => t.id == i) = none := by
  rw [List.find?_eq_none]
  intro x hx
  have hne := (List.mem_filter.mp hx).2
  simp only [bne_iff_ne, ne_eq] at hne
  simp [hne]

/-- Claim C1: every `transferFunds` call appends exactly two records,
sender-side first then recipient-side, both of type `transfer` and status
`completed`, sharing the amount and currency, each cross-referencing the
other side's client and account; and the Balance Adjuster is invoked
exactly twice, first debiting the sender, then crediting the recipient. -/
theorem transferFunds_spec (s : LedgerState) (p : TransferParams) (now : String) :
    ∃ w d : Transaction,
      (transferFunds s p now).state.transactions = s.transactions ++ [w, d] ∧
      w.type = "transfer" ∧ d.type = "transfer" ∧
      w.status = "completed" ∧ d.status = "completed" ∧
      w.amount = p.amount ∧ d.amount = p.amount ∧
      w.currency = p.currency ∧ d.currency = p.currency ∧
      w.clientId = p.fromClientId ∧ w.recipientClientId = some p.toClientId ∧
      w.recipientAccountId = some p.toAccountId ∧
      d.clientId = p.toClientId ∧ d.recipientClientId = some p.fromClientId ∧
      d.recipientAccountId = some p.fromAccountId ∧
      (transferFunds s p now).calls =
        [⟨p.fromClientId, p.fromAccountId, p.amount, false⟩,
         ⟨p.toClientId, p.toAccountId, p.amount, true⟩] := by
  refine ⟨⟨mkId s.nextId, p.fromClientId, p.fromAccountId, "transfer", p.amount,
      "Transfert vers " ++ p.description, now, "completed", p.currency,
      some p.toAccountId, some p.toClientId⟩,
    ⟨mkId (s.nextId + 1), p.toClientId, p.toAccountId, "transfer", p.amount,
      "Transfert reçu de " ++ p.description, now, "completed", p.currency,
      some p.fromAccountId, some p.fromClientId⟩,
    ?_, rfl, rfl, rfl, rfl, rfl, rfl, rfl, rfl, rfl, rfl, rfl, rfl, rfl, rfl, rfl⟩
  exact persist_transactions _

/-- Claim C5: `getClientTransactions c` is exactly the subsequence of the
collection, in original order, of the records whose `clientId` is `c`, and
repeated calls with no intervening mutation agree (the queries are pure
functions of the state, so they cannot mutate it); `getTransaction id`
returns a matching record when one exists and `none` exactly when no record
carries the id, never an error (it is total by construction). -/
theorem queries_spec (s : LedgerState) (c i : String) :
    (getClientTransactions s c).Sublist s.transactions ∧
    (∀ t ∈ getClientTransactions s c, t.clientId = c) ∧
    (∀ t ∈ s.transactions, t.clientId = c → t ∈ getClientTransactions s c) ∧
    getClientTransactions s c = getClientTransactions s c ∧
    (∀ t, getTransaction s i = some t → t ∈ s.transactions ∧ t.id = i) ∧
    (getTransaction s i = none ↔ ∀ t ∈ s.transactions, t.id ≠ i) := by
  refine ⟨List.filter_sublist _, ?_, ?_, rfl, ?_, ?_⟩
  · intro t ht
    have h2 := (List.mem_filter.mp ht).2
    simpa using h2
  · intro t ht hc
    exact List.mem_filter.mpr ⟨ht, by simp [hc]⟩
  · intro t ht
    exact ⟨List.mem_of_find?_eq_some ht, by simpa using List.find?_some ht⟩
  · constructor
    · intro h t ht
      have h2 := List.find?_eq_none.mp h t ht
      simpa using h2
    · intro h
      exact List.find?_eq_none.mpr (fun t ht => by simpa using h t ht)

/-- Claim C9: mutations only append or remove whole records:
`addTransaction` appends one record at the end, `transferFunds` appends two
at the end, leaving every prior record in place, and `deleteTransaction`
keeps the surviving records unchanged field-for-field and in their original
relative order (the result is a sublist of the previous collection). -/
theorem frame_spec (s : LedgerState) (input : AddInput) (p : TransferParams)
    (i now : String) :
    (∃ tx, (addTransaction s input now).state.transactions = s.transactions ++ [tx]) ∧
    (∃ w d, (transferFunds s p now).state.transactions = s.transactions ++ [w, d]) ∧
    (deleteTransaction s i).state.transactions.Sublist s.transactions ∧
    (∀ t ∈ (deleteTransaction s i).state.transactions, t ∈ s.transactions) := by
  refine ⟨⟨_, persist_transactions _⟩, ⟨_, _, persist_transactions _⟩, ?_, ?_⟩
  · cases hf : s.transactions.find? (fun t => t.id == i) with
    | none => simp [deleteTransaction, hf]
    | some t =>
      simp only [deleteTransaction, hf, persist_transactions]
      exact List.filter_sublist _
  · intro t ht
    cases hf : s.transactions.find? (fun u => u.id == i) with
    | none =>
      simp only [deleteTransaction, hf] at ht
      exact ht
    | some u =>
      simp only [deleteTransaction, hf, persist_transactions] at ht
      exact (List.mem_filter.mp ht).1

theorem deleteTransaction_not_found (s : LedgerState) (i : String)
    (hf : s.transactions.find? (fun t => t.id == i) = none) :
    deleteTransaction s i = ⟨s, [], []⟩ := by
  simp [deleteTransaction, hf]

theorem persist_store_of_nonempty (s : LedgerState) (h : s.loading = false)
    (hne : s.transactions ≠ []) :
    (persist s).store = some (encodeTxList s.transactions) := by
  unfold persist
  rw [if_pos ⟨h, List.length_pos.mpr hne⟩]

/-- Claim C2: deleting a present id invokes the Balance Adjuster exactly once
with the stored record's client, account and amount, crediting exactly when
the record's type is not `deposit` (a deposit's reversal debits; a
withdrawal's or either transfer side's reversal credits), then removes the
record from the collection. -/
theorem deleteTransaction_present_spec (s : LedgerState) (i : String) (t : Transaction)
    (h : s.transactions.find? (fun u => u.id == i) = some t) :
    (deleteTransaction s i).calls =
      [⟨t.clientId, t.accountId, t.amount, t.type != "deposit"⟩] ∧
    ((t.type != "deposit") = true ↔ t.type ≠ "deposit") ∧
    (deleteTransaction s i).state.transactions =
      s.transactions.filter (fun u => u.id != i) ∧
    (∀ u ∈ (deleteTransaction s i).state.transactions, u.id ≠ i) := by
  refine ⟨by simp [deleteTransaction, h], by simp, ?_, ?_⟩
  · simp [deleteTransaction, h, persist_transactions]
  · intro u hu
    simp only [deleteTransaction, h, persist_transactions] at hu
    have h2 := (List.mem_filter.mp hu).2
    simpa using h2

/-- Witness for C2: deleting the stored deposit of 100 for `(C1, A1)`
invokes the Balance Adjuster with `("C1", "A1", 100, false)`. -/
theorem deleteTransaction_present_spec_w :
    (deleteTransaction sDeposit "t1").calls = [⟨"C1", "A1", 100, false⟩] := by
  have h := deleteTransaction_present_spec sDeposit "t1" depositC1 (by decide)
  rw [h.1]
  decide

/-- Claim C4: deleting an absent id is a strict no-op — the state, snapshot
included, is unchanged and neither the Balance Adjuster nor the Notifier is
invoked; moreover a repeated delete of the same id immediately after any
delete is always such a no-op, so deleting an id twice performs exactly one
reversal adjustment (on the first call). -/
theorem deleteTransaction_absent_spec (s : LedgerState) (i : String)
    (h : ∀ t ∈ s.transactions, t.id ≠ i) :
    deleteTransaction s i = ⟨s, [], []⟩ ∧
    ∀ s2 : LedgerState, ∀ j : String,
      deleteTransaction (deleteTransaction s2 j).state j =
        ⟨(deleteTransaction s2 j).state, [], []⟩ := by
  constructor
  · exact deleteTransaction_not_found s i
      (List.find?_eq_none.mpr (fun t ht => by simpa using h t ht))
  · intro s2 j
    cases hf : s2.transactions.find? (fun t => t.id == j) with
    | none =>
      rw [deleteTransaction_not_found s2 j hf]
      exact deleteTransaction_not_found s2 j hf
    | some t =>
      refine deleteTransaction_not_found _ j ?_
      simp only [deleteTransaction, hf, persist_transactions]
      exact find?_filter_ne _ _

/-- Witness for C4: deleting an id absent from the one-record state changes
nothing and makes no calls. -/
theorem deleteTransaction_absent_spec_w :
    deleteTransaction sDeposit "zzz" = ⟨sDeposit, [], []⟩ :=
  (deleteTransaction_absent_spec sDeposit "zzz" (by decide)).1

/-- Claim C10: with a duplicated id in the collection, `getTransaction`
returns the first record carrying the id in insertion order,
`deleteTransaction` performs exactly one reversal adjustment, computed from
that first matching record, and removes every record carrying the id. -/
theorem duplicate_id_spec (s : LedgerState) (i : String) (t : Transaction)
    (_hdup : 1 < (s.transactions.filter (fun u => u.id == i)).length)
    (hfind : s.transactions.find? (fun u => u.id == i) = some t) :
    getTransaction s i = some t ∧
    (∃ l1 l2, s.transactions = l1 ++ t :: l2 ∧ ∀ u ∈ l1, u.id ≠ i) ∧
    (deleteTransaction s i).calls =
      [⟨t.clientId, t.accountId, t.amount, t.type != "deposit"⟩] ∧
    (∀ u ∈ (deleteTransaction s i).state.transactions, u.id ≠ i) := by
  obtain ⟨hp, l1, l2, heq, hpre⟩ := List.find?_eq_some.mp hfind
  refine ⟨hfind, ⟨l1, l2, heq, fun u hu => by simpa using hpre u hu⟩,
    by simp [deleteTransaction, hfind], ?_⟩
  intro u hu
  simp only [deleteTransaction, hfind, persist_transactions] at hu
  have h2 := (List.mem_filter.mp hu).2
  simpa using h2

/-- Witness for C10: in a state with two records sharing id `d1`, the lookup
returns the first one and the delete reverses only the first one's effect. -/
theorem duplicate_id_spec_w :
    getTransaction sDup "d1" = some dupA ∧
    (deleteTransaction sDup "d1").calls = [⟨"C1", "A1", 100, false⟩] := by
  have h := duplicate_id_spec sDup "d1" dupA (by decide) (by decide)
  exact ⟨h.1, by rw [h.2.2.1]; decide⟩

/-- Claim C3: `addTransaction` builds the record from the input with a
freshly generated id — unique among all existing ids, under the id-generator
invariant `IdInv`, which every such call preserves — the supplied current
timestamp as `date`, and status `completed`; appends exactly that one record
at the end of the collection; and invokes the Balance Adjuster exactly once
with `(clientId, accountId, amount, isCredit = (type == "deposit"))`.  The
statement quantifies over every input, with no assumption on the amount's
sign or on account existence: the source validates nothing. -/
theorem addTransaction_spec (s : LedgerState) (input : AddInput) (now : String)
    (hinv : IdInv s) :
    ∃ tx : Transaction,
      (addTransaction s input now).state.transactions = s.transactions ++ [tx] ∧
      (∀ u ∈ s.transactions, u.id ≠ tx.id) ∧
      tx.date = now ∧ tx.status = "completed" ∧
      tx.clientId = input.clientId ∧ tx.accountId = input.accountId ∧
      tx.type = input.type ∧ tx.amount = input.amount ∧
      tx.description = input.description ∧ tx.currency = input.currency ∧
      (addTransaction s input now).calls =
        [⟨input.clientId, input.accountId, input.amount, input.type == "deposit"⟩] ∧
      ((input.type == "deposit") = true ↔ input.type = "deposit") ∧
      IdInv (addTransaction s input now).state := by
  refine ⟨⟨mkId s.nextId, input.clientId, input.accountId, input.type, input.amount,
      input.description, now, "completed", input.currency, none, none⟩,
    persist_transactions _, ?_, rfl, rfl, rfl, rfl, rfl, rfl, rfl, rfl, rfl, by simp, ?_⟩
  · intro u hu hid
    obtain ⟨n, hn, he⟩ := hinv u hu
    have heq : mkId n = mkId s.nextId := by rw [← he, hid]
    have := mkId_inj n s.nextId heq
    omega
  · intro u hu
    simp only [addTransaction, persist_transactions, persist_nextId] at hu ⊢
    rcases List.mem_append.mp hu with h1 | h2
    · obtain ⟨n, hn, he⟩ := hinv u h1
      exact ⟨n, by omega, he⟩
    · have hu2 : u = ⟨mkId s.nextId, input.clientId, input.accountId, input.type,
        input.amount, input.description, now, "completed", input.currency,
        none, none⟩ := by simpa using h2
      exact ⟨s.nextId, by omega, by rw [hu2]⟩

/-- Witness for C3: adding the spec's deposit of 100 for `(C1, A1)` to the
freshly loaded empty ledger calls the Balance Adjuster with
`("C1", "A1", 100, true)`. -/
theorem addTransaction_spec_w :
    (addTransaction loadedEmpty input100 "2026-01-01 00:00:00").calls =
      [⟨"C1", "A1", 100, true⟩] := by
  obtain ⟨tx, -, -, -, -, -, -, -, -, -, -, hcalls, -, -⟩ :=
    addTransaction_spec loadedEmpty input100 "2026-01-01 00:00:00"
      (by intro t ht; simp [loadedEmpty, loadSuccess, initState] at ht)
  rw [hcalls]
  decide

/-- Claim C6 (amended): after loading has completed, `addTransaction` and
`transferFunds` always leave the Snapshot Store holding the serialization of
the full current collection (overwritten wholesale), and so does
`deleteTransaction` whenever it found its record and the resulting
collection is still nonempty; deserializing a saved serialization yields a
collection equal field-for-field to the one saved.  The empty collection is
the exception the source's `transactions.length > 0` guard carves out: a
mutation that empties the collection leaves the previous snapshot in place
(see the counterexample). -/
theorem snapshot_spec (s : LedgerState) (input : AddInput) (p : TransferParams)
    (i now : String) (h : s.loading = false) :
    (addTransaction s input now).state.store =
      some (encodeTxList (addTransaction s input now).state.transactions) ∧
    (transferFunds s p now).state.store =
      some (encodeTxList (transferFunds s p now).state.transactions) ∧
    (∀ t, s.transactions.find? (fun u => u.id == i) = some t →
      (deleteTransaction s i).state.transactions ≠ [] →
      (deleteTransaction s i).state.store =
        some (encodeTxList (deleteTransaction s i).state.transactions)) ∧
    (∀ l : List Transaction, decodeTxList (encodeTxList l) = some l) := by
  refine ⟨?_, ?_, ?_, decodeTxList_encodeTxList⟩
  · simp only [addTransaction, persist_transactions]
    exact persist_store_of_nonempty _ h (by simp)
  · simp only [transferFunds, persist_transactions]
    exact persist_store_of_nonempty _ h (by simp)
  · intro t hfind hne
    simp only [deleteTransaction, hfind, persist_transactions] at hne ⊢
    exact persist_store_of_nonempty _ h hne

/-- Witness for C6: adding a withdrawal to the loaded one-record state
overwrites the snapshot with the serialization of the new collection. -/
theorem snapshot_spec_w :
    (addTransaction sDeposit ⟨"C1", "A1", "withdrawal", 25, "w", "USD"⟩
        "2026-01-03 00:00:00").state.store =
      some (encodeTxList (addTransaction sDeposit ⟨"C1", "A1", "withdrawal", 25, "w", "USD"⟩
        "2026-01-03 00:00:00").state.transactions) :=
  (snapshot_spec sDeposit ⟨"C1", "A1", "withdrawal", 25, "w", "USD"⟩
    ⟨"C1", "A1", "C2", "A2", 10, "r", "USD"⟩ "t1" "2026-01-03 00:00:00" (by decide)).1

/-- Claim C6 counterexample: deleting the only record empties the
collection, and the save effect, guarded by `transactions.length > 0`, then
leaves the old snapshot in the store instead of overwriting it with the
serialization of the (empty) current collection. -/
theorem snapshot_empty_cex :
    (deleteTransaction sDeposit "t1").state.transactions = [] ∧
    (deleteTransaction sDeposit "t1").state.store = some (encodeTxList [depositC1]) ∧
    (deleteTransaction sDeposit "t1").state.store ≠
      some (encodeTxList (deleteTransaction sDeposit "t1").state.transactions) := by
  refine ⟨by decide, by decide, by decide⟩

/-- Claim C7 (amended): no operation manufactures a negative amount on its
own — every record's amount is one a caller supplied.  Starting from the
freshly loaded empty ledger, if every amount passed to `addTransaction` and
`transferFunds` is nonnegative, then every record of every reachable
collection has a nonnegative amount. -/
theorem nonneg_amount_invariant (s : LedgerState) (hs : ReachableNonneg s) :
    ∀ t ∈ s.transactions, 0 ≤ t.amount := by
  induction hs with
  | init =>
    intro t ht
    simp [loadedEmpty, loadSuccess, initState] at ht
  | addStep s input now hr hn ih =>
    intro t ht
    simp only [addTransaction, persist_transactions] at ht
    rcases List.mem_append.mp ht with h1 | h2
    · exact ih t h1
    · have ht2 : t = ⟨mkId s.nextId, input.clientId, input.accountId, input.type,
        input.amount, input.description, now, "completed", input.currency,
        none, none⟩ := by simpa using h2
      rw [ht2]
      exact hn
  | transferStep s p now hr hn ih =>
    intro t ht
    simp only [transferFunds, persist_transactions] at ht
    rcases List.mem_append.mp ht with h1 | h2
    · exact ih t h1
    · simp only [List.mem_cons, List.not_mem_nil, or_false] at h2
      rcases h2 with h3 | h3 <;> (subst h3; exact hn)
  | deleteStep s i hr ih =>
    intro t ht
    cases hf : s.transactions.find? (fun u => u.id == i) with
    | none =>
      rw [deleteTransaction_not_found s i hf] at ht
      exact ih t ht
    | some u =>
      simp only [deleteTransaction, hf, persist_transactions] at ht
      exact ih t (List.mem_filter.mp ht).1

/-- Witness for C7 (amended): the state holding only the deposit of 100 is
reachable with nonnegative inputs, and that record's amount is
nonnegative. -/
theorem nonneg_amount_invariant_w :
    ReachableNonneg s100 ∧ tx100 ∈ s100.transactions ∧ 0 ≤ tx100.amount := by
  have hr : ReachableNonneg s100 :=
    ReachableNonneg.addStep loadedEmpty input100 "2026-01-01 00:00:00"
      ReachableNonneg.init (by decide)
  have hm : tx100 ∈ s100.transactions := by decide
  exact ⟨hr, hm, nonneg_amount_invariant s100 hr tx100 hm⟩

/-- Claim C7 counterexample: the state reached from the freshly loaded empty
ledger by one `addTransaction` call with amount `-1` is reachable by the
public operations, yet its collection holds a record with a negative
amount — the source validates nothing, so the caller's sign is kept. -/
theorem amount_negative_cex :
    ReachableLedger (addTransaction loadedEmpty ⟨"C1", "A1", "deposit", -1, "bad", "USD"⟩
      "2026-01-02 00:00:00").state ∧
    ((addTransaction loadedEmpty ⟨"C1", "A1", "deposit", -1, "bad", "USD"⟩
      "2026-01-02 00:00:00").state.transactions.all
        (fun t => decide (0 ≤ t.amount))) = false :=
  ⟨ReachableLedger.addStep loadedEmpty ⟨"C1", "A1", "deposit", -1, "bad", "USD"⟩
    "2026-01-02 00:00:00" ReachableLedger.init, by decide⟩

/-- Claim C8 (amended): when the initial load fails, the component-level
error flag is set to `Failed to load transactions` and `loading` is
cleared, but reads are not blocked: both queries stay available and answer
from the in-memory collection, which is still empty, so
`getClientTransactions` returns the empty sequence and `getTransaction`
returns `none` for every argument. -/
theorem load_failure_reads (c i : String) :
    (loadFailure initState).error = some "Failed to load transactions" ∧
    (loadFailure initState).loading = false ∧
    (loadFailure initState).transactions = [] ∧
    getClientTransactions (loadFailure initState) c = [] ∧
    getTransaction (loadFailure initState) i = none := by
  exact ⟨rfl, rfl, rfl, rfl, rfl⟩

/-- Claim C8 counterexample: after a failed initial load the error flag is
set, yet a read is not blocked — `getClientTransactions` answers from the
empty collection (returning `[]`) and `getTransaction` answers `none`,
contradicting the claim that reads are blocked rather than answered from an
empty collection. -/
theorem load_failure_cex :
    (loadFailure initState).error = some "Failed to load transactions" ∧
    getClientTransactions (loadFailure initState) "C1" = [] ∧
    getTransaction (loadFailure initState) "t1" = none := by
  exact ⟨rfl, rfl, rfl⟩
